import Mathlib

/-!
Shallow embedding of the data-preparation core of `httprunner/utils.py`:
the scope merger (`merge_variables`), the parameter expander
(`gen_cartesian_product`) and the recursive normalizer
(`filter_dict` / `filter_list` / `filter_tuple` / `filter_set`).

Python values reachable by these functions are modelled by the inductive
type `Value`.  Numbers are modelled by `Int` (the claims only exercise
integers); Python `dict`s are insertion-ordered association lists and
Python `set`s are lists in insertion order with membership-based
deduplication.  Python's `str.strip` / `str.lower` are modelled for the
ASCII range, which covers every string the claims mention.
-/

/-- A JSON-like Python value as handled by the normalizer. -/
inductive Value : Type where
  | null : Value
  | int : Int → Value
  | bool : Bool → Value
  | str : List Char → Value
  | dict : List (String × Value) → Value
  | list : List Value → Value
  | tuple : List Value → Value
  | set : List Value → Value

mutual

/-- Decidable structural equality on `Value` (Python `==` on these
shapes), written by hand because the inductive nests `List`. -/
def valueDecEq : (a b : Value) → Decidable (a = b)
  | Value.null, Value.null => isTrue rfl
  | Value.int a, Value.int b =>
    match decEq a b with
    | isTrue h => isTrue (by rw [h])
    | isFalse h => isFalse (by intro he; injection he; contradiction)
  | Value.bool a, Value.bool b =>
    match decEq a b with
    | isTrue h => isTrue (by rw [h])
    | isFalse h => isFalse (by intro he; injection he; contradiction)
  | Value.str a, Value.str b =>
    match decEq a b with
    | isTrue h => isTrue (by rw [h])
    | isFalse h => isFalse (by intro he; injection he; contradiction)
  | Value.dict a, Value.dict b =>
    match entriesDecEq a b with
    | isTrue h => isTrue (by rw [h])
    | isFalse h => isFalse (by intro he; injection he; contradiction)
  | Value.list a, Value.list b =>
    match valuesDecEq a b with
    | isTrue h => isTrue (by rw [h])
    | isFalse h => isFalse (by intro he; injection he; contradiction)
  | Value.tuple a, Value.tuple b =>
    match valuesDecEq a b with
    | isTrue h => isTrue (by rw [h])
    | isFalse h => isFalse (by intro he; injection he; contradiction)
  | Value.set a, Value.set b =>
    match valuesDecEq a b with
    | isTrue h => isTrue (by rw [h])
    | isFalse h => isFalse (by intro he; injection he; contradiction)
  | Value.null, Value.int _ => isFalse (by intro h; exact Value.noConfusion h)
  | Value.null, Value.bool _ => isFalse (by intro h; exact Value.noConfusion h)
  | Value.null, Value.str _ => isFalse (by intro h; exact Value.noConfusion h)
  | Value.null, Value.dict _ => isFalse (by intro h; exact Value.noConfusion h)
  | Value.null, Value.list _ => isFalse (by intro h; exact Value.noConfusion h)
  | Value.null, Value.tuple _ => isFalse (by intro h; exact Value.noConfusion h)
  | Value.null, Value.set _ => isFalse (by intro h; exact Value.noConfusion h)
  | Value.int _, Value.null => isFalse (by intro h; exact Value.noConfusion h)
  | Value.int _, Value.bool _ => isFalse (by intro h; exact Value.noConfusion h)
  | Value.int _, Value.str _ => isFalse (by intro h; exact Value.noConfusion h)
  | Value.int _, Value.dict _ => isFalse (by intro h; exact Value.noConfusion h)
  | Value.int _, Value.list _ => isFalse (by intro h; exact Value.noConfusion h)
  | Value.int _, Value.tuple _ => isFalse (by intro h; exact Value.noConfusion h)
  | Value.int _, Value.set _ => isFalse (by intro h; exact Value.noConfusion h)
  | Value.bool _, Value.null => isFalse (by intro h; exact Value.noConfusion h)
  | Value.bool _, Value.int _ => isFalse (by intro h; exact Value.noConfusion h)
  | Value.bool _, Value.str _ => isFalse (by intro h; exact Value.noConfusion h)
  | Value.bool _, Value.dict _ => isFalse (by intro h; exact Value.noConfusion h)
  | Value.bool _, Value.list _ => isFalse (by intro h; exact Value.noConfusion h)
  | Value.bool _, Value.tuple _ => isFalse (by intro h; exact Value.noConfusion h)
  | Value.bool _, Value.set _ => isFalse (by intro h; exact Value.noConfusion h)
  | Value.str _, Value.null => isFalse (by intro h; exact Value.noConfusion h)
  | Value.str _, Value.int _ => isFalse (by intro h; exact Value.noConfusion h)
  | Value.str _, Value.bool _ => isFalse (by intro h; exact Value.noConfusion h)
  | Value.str _, Value.dict _ => isFalse (by intro h; exact Value.noConfusion h)
  | Value.str _, Value.list _ => isFalse (by intro h; exact Value.noConfusion h)
  | Value.str _, Value.tuple _ => isFalse (by intro h; exact Value.noConfusion h)
  | Value.str _, Value.set _ => isFalse (by intro h; exact Value.noConfusion h)
  | Value.dict _, Value.null => isFalse (by intro h; exact Value.noConfusion h)
  | Value.dict _, Value.int _ => isFalse (by intro h; exact Value.noConfusion h)
  | Value.dict _, Value.bool _ => isFalse (by intro h; exact Value.noConfusion h)
  | Value.dict _, Value.str _ => isFalse (by intro h; exact Value.noConfusion h)
  | Value.dict _, Value.list _ => isFalse (by intro h; exact Value.noConfusion h)
  | Value.dict _, Value.tuple _ => isFalse (by intro h; exact Value.noConfusion h)
  | Value.dict _, Value.set _ => isFalse (by intro h; exact Value.noConfusion h)
  | Value.list _, Value.null => isFalse (by intro h; exact Value.noConfusion h)
  | Value.list _, Value.int _ => isFalse (by intro h; exact Value.noConfusion h)
  | Value.list _, Value.bool _ => isFalse (by intro h; exact Value.noConfusion h)
  | Value.list _, Value.str _ => isFalse (by intro h; exact Value.noConfusion h)
  | Value.list _, Value.dict _ => isFalse (by intro h; exact Value.noConfusion h)
  | Value.list _, Value.tuple _ => isFalse (by intro h; exact Value.noConfusion h)
  | Value.list _, Value.set _ => isFalse (by intro h; exact Value.noConfusion h)
  | Value.tuple _, Value.null => isFalse (by intro h; exact Value.noConfusion h)
  | Value.tuple _, Value.int _ => isFalse (by intro h; exact Value.noConfusion h)
  | Value.tuple _, Value.bool _ => isFalse (by intro h; exact Value.noConfusion h)
  | Value.tuple _, Value.str _ => isFalse (by intro h; exact Value.noConfusion h)
  | Value.tuple _, Value.dict _ => isFalse (by intro h; exact Value.noConfusion h)
  | Value.tuple _, Value.list _ => isFalse (by intro h; exact Value.noConfusion h)
  | Value.tuple _, Value.set _ => isFalse (by intro h; exact Value.noConfusion h)
  | Value.set _, Value.null => isFalse (by intro h; exact Value.noConfusion h)
  | Value.set _, Value.int _ => isFalse (by intro h; exact Value.noConfusion h)
  | Value.set _, Value.bool _ => isFalse (by intro h; exact Value.noConfusion h)
  | Value.set _, Value.str _ => isFalse (by intro h; exact Value.noConfusion h)
  | Value.set _, Value.dict _ => isFalse (by intro h; exact Value.noConfusion h)
  | Value.set _, Value.list _ => isFalse (by intro h; exact Value.noConfusion h)
  | Value.set _, Value.tuple _ => isFalse (by intro h; exact Value.noConfusion h)

def valuesDecEq : (a b : List Value) → Decidable (a = b)
  | [], [] => isTrue rfl
  | [], _ :: _ => isFalse (by intro h; exact List.noConfusion h)
  | _ :: _, [] => isFalse (by intro h; exact List.noConfusion h)
  | x :: xs, y :: ys =>
    match valueDecEq x y with
    | isTrue h1 =>
      match valuesDecEq xs ys with
      | isTrue h2 => isTrue (by rw [h1, h2])
      | isFalse h2 => isFalse (by intro he; injection he; contradiction)
    | isFalse h1 => isFalse (by intro he; injection he; contradiction)

def entriesDecEq : (a b : List (String × Value)) → Decidable (a = b)
  | [], [] => isTrue rfl
  | [], _ :: _ => isFalse (by intro h; exact List.noConfusion h)
  | _ :: _, [] => isFalse (by intro h; exact List.noConfusion h)
  | (k1, v1) :: xs, (k2, v2) :: ys =>
    match decEq k1 k2 with
    | isTrue hk =>
      match valueDecEq v1 v2 with
      | isTrue h1 =>
        match entriesDecEq xs ys with
        | isTrue h2 => isTrue (by rw [hk, h1, h2])
        | isFalse h2 => isFalse (by intro he; injection he; simp_all)
      | isFalse h1 => isFalse (by intro he; injection he; simp_all)
    | isFalse hk => isFalse (by intro he; injection he; simp_all)

end

instance : DecidableEq Value := valueDecEq

instance : DecidableEq (Except String Value) :=
  fun a b =>
    match a, b with
    | Except.ok x, Except.ok y =>
      match decEq x y with
      | isTrue h => isTrue (by rw [h])
      | isFalse h => isFalse (by intro he; injection he; contradiction)
    | Except.error x, Except.error y =>
      match decEq x y with
      | isTrue h => isTrue (by rw [h])
      | isFalse h => isFalse (by intro he; injection he; contradiction)
    | Except.ok _, Except.error _ => isFalse (by intro h; exact Except.noConfusion h)
    | Except.error _, Except.ok _ => isFalse (by intro h; exact Except.noConfusion h)

instance : DecidableEq (Except String (List Value)) :=
  fun a b =>
    match a, b with
    | Except.ok x, Except.ok y =>
      match decEq x y with
      | isTrue h => isTrue (by rw [h])
      | isFalse h => isFalse (by intro he; injection he; contradiction)
    | Except.error x, Except.error y =>
      match decEq x y with
      | isTrue h => isTrue (by rw [h])
      | isFalse h => isFalse (by intro he; injection he; contradiction)
    | Except.ok _, Except.error _ => isFalse (by intro h; exact Except.noConfusion h)
    | Except.error _, Except.ok _ => isFalse (by intro h; exact Except.noConfusion h)

/-- Convert a Lean string literal to a `Value` string. -/
def pstr (s : String) : Value := Value.str s.toList

/-- A Python `dict` of variables: insertion-ordered association list. -/
abbrev VarMap := List (String × Value)

/-- ASCII whitespace stripped by Python's `str.strip()`:
space, tab, newline, carriage return, vertical tab, form feed. -/
def isPySpace (c : Char) : Bool :=
  c.toNat = 32 || c.toNat = 9 || c.toNat = 10 || c.toNat = 13 ||
    c.toNat = 11 || c.toNat = 12

/-- Python `str.strip()`: remove leading and trailing whitespace. -/
def pyStrip (s : List Char) : List Char :=
  List.rdropWhile isPySpace (s.dropWhile isPySpace)

/-- Lower-case one character (Python `str.lower`, ASCII range). -/
def pyLowerChar (c : Char) : Char :=
  if 65 ≤ c.toNat ∧ c.toNat ≤ 90 then Char.ofNat (c.toNat + 32) else c

/-- Python `str.lower()` (ASCII range). -/
def pyLower (s : List Char) : List Char := s.map pyLowerChar

/-- `value.strip().lower()` as applied by every normalizer branch. -/
def normStr (s : List Char) : List Char := pyLower (pyStrip s)

/-- The default sentinel `'@null@'` of the `filter_*` functions. -/
def nullSentinel : List Char := ("@null@" : String).toList

/-- `filter_dict` from `utils.py`.

In the source, everything after the early `return data` of the
`if data is None:` branch — the isinstance check, the key/value loop and
the final `return result_data` — is indented one level too deep, inside
that same `if` block, after its `return`.  That whole body is therefore
unreachable: for `None` the function returns `None` via the early
return, and for every other argument it falls off the end of the
function body and returns `None` implicitly.  It never raises. -/
def filter_dict (data : Value) (_fc : List Char) : Except String Value :=
  if data = Value.null then Except.ok Value.null else Except.ok Value.null

/-- Python `set.add`: append unless already a member. -/
def setAdd (acc : List Value) (v : Value) : List Value :=
  if v ∈ acc then acc else acc ++ [v]

/-- Element loop of `filter_set` (live code): scalars are kept
(strings stripped/lowered, sentinel matches skipped), every nested
`dict`/`list`/`set`/`tuple` raises `TypeError`.  The first argument list
is the `result_data` set built so far. -/
def filterSetElems (fc : List Char) : List Value → List Value → Except String (List Value)
  | acc, [] => Except.ok acc
  | acc, e :: rest =>
    match e with
    | Value.int n => filterSetElems fc (setAdd acc (Value.int n)) rest
    | Value.bool b => filterSetElems fc (setAdd acc (Value.bool b)) rest
    | Value.str s =>
      if normStr s = fc then filterSetElems fc acc rest
      else filterSetElems fc (setAdd acc (Value.str (normStr s))) rest
    | Value.dict _ => Except.error ("set no daughter elements for dict/list/set/tuple")
    | Value.list _ => Except.error ("set no daughter elements for dict/list/set/tuple")
    | Value.set _ => Except.error ("set no daughter elements for dict/list/set/tuple")
    | Value.tuple _ => Except.error ("set no daughter elements for dict/list/set/tuple")
    | Value.null => filterSetElems fc (setAdd acc Value.null) rest

/-- `filter_set` from `utils.py`: `None` passes through, a non-set
argument raises `TypeError`, otherwise the element loop runs. -/
def filter_set (data : Value) (fc : List Char) : Except String Value :=
  match data with
  | Value.null => Except.ok Value.null
  | Value.set elems => Except.map Value.set (filterSetElems fc [] elems)
  | _ => Except.error ("filter_condition must str and data will be set for the method filter_set")

mutual

/-- Element loop of `filter_list` (live code), mutually recursive with
the tuple loop because lists and tuples nest in each other: scalars
appended, strings stripped/lowered with sentinel elision, a `dict`
element contributes `filter_dict`'s result (which is always `None`, see
`filter_dict`), a nested list is normalized and then spliced in flatly
via `result_data.extend(...)`, a nested tuple or set is normalized and
appended as a single element. -/
def filterListElems (fc : List Char) : List Value → Except String (List Value)
  | [] => Except.ok []
  | e :: rest =>
    match e with
    | Value.int n =>
      Except.map (fun r => Value.int n :: r) (filterListElems fc rest)
    | Value.bool b =>
      Except.map (fun r => Value.bool b :: r) (filterListElems fc rest)
    | Value.str s =>
      if normStr s = fc then filterListElems fc rest
      else Except.map (fun r => Value.str (normStr s) :: r) (filterListElems fc rest)
    | Value.dict d =>
      Except.bind (filter_dict (Value.dict d) fc) (fun v =>
        Except.map (fun r => v :: r) (filterListElems fc rest))
    | Value.list l =>
      Except.bind (filterListElems fc l) (fun inner =>
        Except.map (fun r => inner ++ r) (filterListElems fc rest))
    | Value.tuple t =>
      Except.bind (filterTupleElems fc t) (fun inner =>
        Except.map (fun r => Value.tuple inner :: r) (filterListElems fc rest))
    | Value.set s =>
      Except.bind (filter_set (Value.set s) fc) (fun v =>
        Except.map (fun r => v :: r) (filterListElems fc rest))
    | Value.null =>
      Except.map (fun r => Value.null :: r) (filterListElems fc rest)

/-- Element loop of `filter_tuple` (live code): identical dispatch to
`filterListElems`, except that a nested list is appended as a single
(normalized) list element rather than spliced. -/
def filterTupleElems (fc : List Char) : List Value → Except String (List Value)
  | [] => Except.ok []
  | e :: rest =>
    match e with
    | Value.int n =>
      Except.map (fun r => Value.int n :: r) (filterTupleElems fc rest)
    | Value.bool b =>
      Except.map (fun r => Value.bool b :: r) (filterTupleElems fc rest)
    | Value.str s =>
      if normStr s = fc then filterTupleElems fc rest
      else Except.map (fun r => Value.str (normStr s) :: r) (filterTupleElems fc rest)
    | Value.dict d =>
      Except.bind (filter_dict (Value.dict d) fc) (fun v =>
        Except.map (fun r => v :: r) (filterTupleElems fc rest))
    | Value.list l =>
      Except.bind (filterListElems fc l) (fun inner =>
        Except.map (fun r => Value.list inner :: r) (filterTupleElems fc rest))
    | Value.tuple t =>
      Except.bind (filterTupleElems fc t) (fun inner =>
        Except.map (fun r => Value.tuple inner :: r) (filterTupleElems fc rest))
    | Value.set s =>
      Except.bind (filter_set (Value.set s) fc) (fun v =>
        Except.map (fun r => v :: r) (filterTupleElems fc rest))
    | Value.null =>
      Except.map (fun r => Value.null :: r) (filterTupleElems fc rest)

end

/-- `filter_list` from `utils.py`: `None` passes through, a non-list
argument raises `TypeError`, otherwise the element loop runs. -/
def filter_list (data : Value) (fc : List Char) : Except String Value :=
  match data with
  | Value.null => Except.ok Value.null
  | Value.list l => Except.map Value.list (filterListElems fc l)
  | _ => Except.error ("filter_condition must str and data will be list for the method filter_list")

/-- `filter_tuple` from `utils.py`: `None` passes through, a non-tuple
argument raises `TypeError`, otherwise the element loop runs. -/
def filter_tuple (data : Value) (fc : List Char) : Except String Value :=
  match data with
  | Value.null => Except.ok Value.null
  | Value.tuple t => Except.map Value.tuple (filterTupleElems fc t)
  | _ => Except.error ("filter_condition must str and data will be tuple for the method filter_tuple")

/-- Python dict assignment `d[k] = v` on an insertion-ordered
association list: an existing key keeps its position and gets the new
value, a new key is appended at the end. -/
def updateEntry (d : VarMap) (k : String) (v : Value) : VarMap :=
  if d.any (fun p => p.1 = k) then
    d.map (fun p => if p.1 = k then (k, v) else p)
  else
    d ++ [(k, v)]

/-- Python `d.update(e)`: assign every pair of `e` into `d`, in order. -/
def pyDictUpdate (d e : VarMap) : VarMap :=
  e.foldl (fun acc p => updateEntry acc p.1 p.2) d

/-- Python `d[k]` lookup (first matching key; with `Nodup` keys the
association list behaves exactly like a dict). -/
def lookupVar (m : VarMap) (k : String) : Option Value :=
  Option.map (fun p => p.2) (m.find? (fun p => p.1 = k))

/-- The self-reference test of `merge_variables`:
`f"$\x7bkey\x7d" == value or "$\x7b" + key + "\x7d" == value`, a literal
string comparison against `$key` and `$\x7bkey\x7d`. -/
def isSelfRef (k : String) (v : Value) : Bool :=
  v = Value.str (("$" ++ k).toList) ∨ v = Value.str (("$\x7b" ++ k ++ "\x7d").toList)

/-- `merge_variables` from `utils.py`: build `step_new_variables` by
dropping every local pair whose value is the reference string of its own
key, then return a copy of `variables_to_be_overridden` updated with the
kept pairs. -/
def merge_variables (vars variables_to_be_overridden : VarMap) : VarMap :=
  let step_new_variables := vars.filter (fun p => ! isSelfRef p.1 p.2)
  pyDictUpdate variables_to_be_overridden step_new_variables

/-- `itertools.product` over a list of lists, in its documented
nested-loop order: the first factor varies slowest, the last fastest. -/
def listProd : List (List α) → List (List α)
  | [] => [[]]
  | d :: rest => d.flatMap (fun x => (listProd rest).map (fun t => x :: t))

/-- `gen_cartesian_product` from `utils.py`: no argument gives `[]`, a
single argument list is returned unchanged, otherwise every product
tuple is collapsed by `dict.update` into one dict, in product order. -/
def gen_cartesian_product (args : List (List VarMap)) : List VarMap :=
  match args with
  | [] => []
  | [d] => d
  | _ =>
    (listProd args).map (fun tup => tup.foldl (fun acc item => pyDictUpdate acc item) [])

/-- Modelled from the spec (§4.2 algorithm): expansion as one literal
nested loop — iterate dimension 0 outermost, update-merge each fragment
into the accumulator left to right, emit the accumulator at the
innermost level.  Used as the independent reference order against which
`gen_cartesian_product` is checked. -/
def mergeLoop (acc : VarMap) : List (List VarMap) → List VarMap
  | [] => [acc]
  | d :: rest => d.flatMap (fun frag => mergeLoop (pyDictUpdate acc frag) rest)

/-- Container kinds: exactly the element shapes `filter_set` rejects. -/
def isContainer : Value → Bool
  | Value.dict _ => true
  | Value.list _ => true
  | Value.set _ => true
  | Value.tuple _ => true
  | _ => false

/-- The per-scalar action every normalizer loop applies: numbers,
booleans and `None` pass through, a string is stripped/lowered and
elided (`none`) when it equals the sentinel; containers have no scalar
action. -/
def scalarNorm (fc : List Char) : Value → Option Value
  | Value.int n => some (Value.int n)
  | Value.bool b => some (Value.bool b)
  | Value.null => some Value.null
  | Value.str s => if normStr s = fc then none else some (Value.str (normStr s))
  | _ => none

/-! ### Canonicalization of strings: `strip` and `lower` are idempotent -/

theorem toNat_charOfNat (n : Nat) (h : n < 55296) : (Char.ofNat n).toNat = n := by
  have hv : n.isValidChar := Or.inl h
  rw [Char.ofNat, dif_pos hv]
  rfl

theorem pyLowerChar_toNat (c : Char) (h1 : 65 ≤ c.toNat) (h2 : c.toNat ≤ 90) :
    (pyLowerChar c).toNat = c.toNat + 32 := by
  simp only [pyLowerChar, if_pos (And.intro h1 h2)]
  exact toNat_charOfNat _ (by omega)

theorem pyLowerChar_eq_self (c : Char) (h : ¬(65 ≤ c.toNat ∧ c.toNat ≤ 90)) :
    pyLowerChar c = c := by
  simp only [pyLowerChar, if_neg h]

theorem pyLowerChar_idem (c : Char) : pyLowerChar (pyLowerChar c) = pyLowerChar c := by
  by_cases h : 65 ≤ c.toNat ∧ c.toNat ≤ 90
  · have h3 : (pyLowerChar c).toNat = c.toNat + 32 := pyLowerChar_toNat c h.1 h.2
    exact pyLowerChar_eq_self _ (by omega)
  · rw [pyLowerChar_eq_self c h]
    exact pyLowerChar_eq_self c h

theorem isPySpace_false_of_ge (c : Char) (h : 33 ≤ c.toNat) : isPySpace c = false := by
  simp only [isPySpace]
  simp only [Bool.or_eq_false_iff, decide_eq_false_iff_not]
  omega

theorem isPySpace_pyLowerChar (c : Char) : isPySpace (pyLowerChar c) = isPySpace c := by
  by_cases h : 65 ≤ c.toNat ∧ c.toNat ≤ 90
  · rw [isPySpace_false_of_ge c (by omega)]
    refine isPySpace_false_of_ge _ ?_
    rw [pyLowerChar_toNat c h.1 h.2]
    omega
  · rw [pyLowerChar_eq_self c h]

theorem isPySpace_comp_pyLowerChar : isPySpace ∘ pyLowerChar = isPySpace :=
  funext fun c => isPySpace_pyLowerChar c

theorem pyLower_idem (s : List Char) : pyLower (pyLower s) = pyLower s := by
  simp only [pyLower, List.map_map]
  exact List.map_congr_left (fun c _ => pyLowerChar_idem c)

theorem dropWhile_pyStrip (s : List Char) :
    (pyStrip s).dropWhile isPySpace = pyStrip s := by
  apply List.dropWhile_eq_self_iff.mpr
  intro hl
  have hpre : pyStrip s <+: (s.dropWhile isPySpace) := List.rdropWhile_prefix _ _
  have hul : 0 < (s.dropWhile isPySpace).length :=
    Nat.lt_of_lt_of_le hl hpre.length_le
  have hget := hpre.get_eq (n := 0) hl
  rw [hget]
  exact List.dropWhile_get_zero_not isPySpace s hul

theorem pyStrip_idem (s : List Char) : pyStrip (pyStrip s) = pyStrip s := by
  show List.rdropWhile isPySpace ((pyStrip s).dropWhile isPySpace) = pyStrip s
  rw [dropWhile_pyStrip]
  exact List.rdropWhile_idempotent _ _

theorem rdropWhile_pyLower (s : List Char) :
    List.rdropWhile isPySpace (pyLower s) = pyLower (List.rdropWhile isPySpace s) := by
  simp only [List.rdropWhile, pyLower]
  rw [← List.map_reverse, List.dropWhile_map, isPySpace_comp_pyLowerChar, List.map_reverse]

theorem pyStrip_pyLower (s : List Char) : pyStrip (pyLower s) = pyLower (pyStrip s) := by
  simp only [pyStrip, pyLower]
  rw [List.dropWhile_map, isPySpace_comp_pyLowerChar]
  exact rdropWhile_pyLower _

theorem normStr_idem (s : List Char) : normStr (normStr s) = normStr s := by
  simp only [normStr]
  rw [pyStrip_pyLower, pyStrip_idem, pyLower_idem]

/-! ### Lookup and update on insertion-ordered dicts -/

theorem lookupVar_cons (p : String × Value) (t : VarMap) (k : String) :
    lookupVar (p :: t) k = if p.1 = k then some p.2 else lookupVar t k := by
  simp only [lookupVar, List.find?_cons]
  by_cases h : p.1 = k
  · simp [h]
  · simp [h]

theorem lookupVar_eq_none_of_not_mem (t : VarMap) (k : String)
    (h : k ∉ t.map Prod.fst) : lookupVar t k = none := by
  have : t.find? (fun p => p.1 = k) = none := by
    rw [List.find?_eq_none]
    intro x hx
    simp only [decide_eq_true_eq]
    intro hx1
    exact h (hx1 ▸ List.mem_map_of_mem Prod.fst hx)
  simp [lookupVar, this]

theorem lookupVar_map_replace_ne (d : VarMap) (k k' : String) (v : Value) (hne : k' ≠ k) :
    lookupVar (d.map (fun p => if p.1 = k then (k, v) else p)) k' = lookupVar d k' := by
  induction d with
  | nil => rfl
  | cons p t ih =>
    simp only [List.map_cons]
    by_cases hp : p.1 = k
    · rw [if_pos hp, lookupVar_cons, lookupVar_cons]
      rw [if_neg (fun h => hne (h.symm)), if_neg (fun h => hne ((hp ▸ h).symm))]
      exact ih
    · rw [if_neg hp, lookupVar_cons, lookupVar_cons]
      by_cases hpk : p.1 = k'
      · rw [if_pos hpk, if_pos hpk]
      · rw [if_neg hpk, if_neg hpk]
        exact ih

theorem lookupVar_map_replace_eq (d : VarMap) (k : String) (v : Value)
    (hany : d.any (fun p => p.1 = k) = true) :
    lookupVar (d.map (fun p => if p.1 = k then (k, v) else p)) k = some v := by
  induction d with
  | nil => simp at hany
  | cons p t ih =>
    simp only [List.map_cons]
    by_cases hp : p.1 = k
    · rw [if_pos hp, lookupVar_cons, if_pos rfl]
    · rw [if_neg hp, lookupVar_cons, if_neg hp]
      apply ih
      simp only [List.any_cons, Bool.or_eq_true, decide_eq_true_eq] at hany
      rcases hany with h | h
      · exact absurd h hp
      · exact h

theorem lookupVar_updateEntry (d : VarMap) (k : String) (v : Value) (k' : String) :
    lookupVar (updateEntry d k v) k' = if k' = k then some v else lookupVar d k' := by
  unfold updateEntry
  by_cases hany : d.any (fun p => p.1 = k) = true
  · rw [if_pos hany]
    by_cases hk : k' = k
    · subst hk
      rw [if_pos rfl]
      exact lookupVar_map_replace_eq d k' v hany
    · rw [if_neg hk]
      exact lookupVar_map_replace_ne d k k' v hk
  · rw [if_neg hany]
    have hnone : lookupVar d k = none := by
      apply lookupVar_eq_none_of_not_mem
      intro hmem
      apply hany
      rcases List.mem_map.mp hmem with ⟨p, hp, hp1⟩
      exact List.any_of_mem hp (by simp [hp1])
    simp only [lookupVar, List.find?_append]
    by_cases hk : k' = k
    · subst hk
      have : d.find? (fun p => p.1 = k') = none := by
        simpa [lookupVar] using hnone
      simp [this, List.find?_cons, if_pos rfl]
    · have : List.find? (fun p => p.1 = k') [(k, v)] = none := by
        rw [List.find?_eq_none]
        intro x hx
        simp only [List.mem_singleton] at hx
        subst hx
        simp only [decide_eq_true_eq]
        exact fun h => hk h.symm
      rw [this, Option.or_none, if_neg hk]

theorem lookupVar_pyDictUpdate_of_none (d e : VarMap) (k : String)
    (h : lookupVar e k = none) :
    lookupVar (pyDictUpdate d e) k = lookupVar d k := by
  induction e generalizing d with
  | nil => rfl
  | cons p t ih =>
    rw [lookupVar_cons] at h
    by_cases hp : p.1 = k
    · rw [if_pos hp] at h
      exact absurd h (by simp)
    · rw [if_neg hp] at h
      show lookupVar (pyDictUpdate (updateEntry d p.1 p.2) t) k = _
      rw [ih (updateEntry d p.1 p.2) h, lookupVar_updateEntry]
      rw [if_neg (fun hh => hp hh.symm)]

theorem lookupVar_pyDictUpdate_of_some (d e : VarMap) (k : String) (v : Value)
    (hnd : (e.map Prod.fst).Nodup) (h : lookupVar e k = some v) :
    lookupVar (pyDictUpdate d e) k = some v := by
  induction e generalizing d with
  | nil => simp [lookupVar] at h
  | cons p t ih =>
    rw [lookupVar_cons] at h
    have hnd' : (t.map Prod.fst).Nodup := (List.nodup_cons.mp (by simpa using hnd)).2
    by_cases hp : p.1 = k
    · rw [if_pos hp] at h
      injection h with hv
      have hknot : k ∉ t.map Prod.fst := by
        rw [← hp]
        exact (List.nodup_cons.mp (by simpa using hnd)).1
      have htnone : lookupVar t k = none := lookupVar_eq_none_of_not_mem t k hknot
      show lookupVar (pyDictUpdate (updateEntry d p.1 p.2) t) k = some v
      rw [lookupVar_pyDictUpdate_of_none _ t k htnone, lookupVar_updateEntry]
      rw [if_pos hp.symm, hv]
    · rw [if_neg hp] at h
      show lookupVar (pyDictUpdate (updateEntry d p.1 p.2) t) k = some v
      exact ih (updateEntry d p.1 p.2) hnd' h

theorem lookupVar_filter (q : String × Value → Bool) (loc : VarMap) (k : String) (v : Value)
    (hnd : (loc.map Prod.fst).Nodup) (h : lookupVar loc k = some v) :
    lookupVar (loc.filter q) k = if q (k, v) then some v else none := by
  induction loc with
  | nil => simp [lookupVar] at h
  | cons p t ih =>
    rw [lookupVar_cons] at h
    have hnd' : (t.map Prod.fst).Nodup := (List.nodup_cons.mp (by simpa using hnd)).2
    by_cases hp : p.1 = k
    · rw [if_pos hp] at h
      injection h with hv
      have hpkv : p = (k, v) := Prod.ext hp (by rw [hv])
      have hknot : k ∉ t.map Prod.fst := by
        rw [← hp]
        exact (List.nodup_cons.mp (by simpa using hnd)).1
      subst hpkv
      rw [List.filter_cons]
      by_cases hq : q (k, v) = true
      · rw [if_pos hq, lookupVar_cons, if_pos rfl, if_pos hq]
      · rw [if_neg hq, if_neg hq]
        have : k ∉ (t.filter q).map Prod.fst := by
          intro hmem
          apply hknot
          rcases List.mem_map.mp hmem with ⟨x, hx, hx1⟩
          exact hx1 ▸ List.mem_map_of_mem Prod.fst (List.mem_of_mem_filter hx)
        exact lookupVar_eq_none_of_not_mem _ k this
    · rw [if_neg hp] at h
      rw [List.filter_cons]
      by_cases hq : q p = true
      · rw [if_pos hq, lookupVar_cons, if_neg hp]
        exact ih hnd' h
      · rw [if_neg hq]
        exact ih hnd' h

theorem nodup_keys_filter (q : String × Value → Bool) (loc : VarMap)
    (hnd : (loc.map Prod.fst).Nodup) : ((loc.filter q).map Prod.fst).Nodup :=
  ((List.filter_sublist loc).map Prod.fst).nodup hnd

/-- Shared core of the self-reference claims: a local pair whose value
is the reference string of its own key is filtered out, so the merged
lookup at that key falls through to the inherited mapping. -/
theorem merge_lookup_selfref (loc inh : VarMap) (k : String) (v : Value)
    (hnd : (loc.map Prod.fst).Nodup)
    (hl : lookupVar loc k = some v)
    (hv : v = Value.str (("$" ++ k).toList) ∨
      v = Value.str (("$\x7b" ++ k ++ "\x7d").toList)) :
    lookupVar (merge_variables loc inh) k = lookupVar inh k := by
  show lookupVar (pyDictUpdate inh (loc.filter (fun p => ! isSelfRef p.1 p.2))) k = _
  apply lookupVar_pyDictUpdate_of_none
  rw [lookupVar_filter _ loc k v hnd hl]
  have hsr : isSelfRef k v = true := decide_eq_true hv
  simp [hsr]

/-! ### Elementary `Except` computation lemmas -/

theorem emap_okk {α β : Type} (f : α → β) (x : α) :
    Except.map f (Except.ok x : Except String α) = Except.ok (f x) := rfl

theorem emap_err {α β : Type} (f : α → β) (msg : String) :
    Except.map f (Except.error msg : Except String α) = Except.error msg := rfl

theorem ebind_okk {α β : Type} (f : α → Except String β) (x : α) :
    Except.bind (Except.ok x : Except String α) f = f x := rfl

theorem ebind_err {α β : Type} (f : α → Except String β) (msg : String) :
    Except.bind (Except.error msg : Except String α) f = Except.error msg := rfl

theorem emap_emap {α β γ : Type} (f : β → γ) (g : α → β) (x : Except String α) :
    Except.map f (Except.map g x) = Except.map (fun a => f (g a)) x := by
  cases x <;> rfl

theorem emap_ebind {α β γ : Type} (f : β → γ) (g : α → Except String β)
    (x : Except String α) :
    Except.map f (Except.bind x g) = Except.bind x (fun a => Except.map f (g a)) := by
  cases x <;> rfl

theorem ebind_emap {α β γ : Type} (f : β → Except String γ) (g : α → β)
    (x : Except String α) :
    Except.bind (Except.map g x) f = Except.bind x (fun a => f (g a)) := by
  cases x <;> rfl

theorem ebind_ebind {α β γ : Type} (x : Except String α) (f : α → Except String β)
    (g : β → Except String γ) :
    Except.bind (Except.bind x f) g = Except.bind x (fun a => Except.bind (f a) g) := by
  cases x <;> rfl

theorem emap_id {α : Type} (x : Except String α) : Except.map (fun a => a) x = x := by
  cases x <;> rfl

/-! ### The list loop distributes over append (flat splicing) -/

theorem filterListElems_append (fc : List Char) (xs ys : List Value) :
    filterListElems fc (xs ++ ys) =
      Except.bind (filterListElems fc xs)
        (fun a => Except.map (fun b => a ++ b) (filterListElems fc ys)) := by
  induction xs with
  | nil => simp [filterListElems, ebind_okk, emap_id]
  | cons e rest ih =>
    cases e with
    | null =>
      simp [List.cons_append, filterListElems, ih, emap_ebind, emap_emap,
        ebind_ebind, ebind_emap]
    | int n =>
      simp [List.cons_append, filterListElems, ih, emap_ebind, emap_emap,
        ebind_ebind, ebind_emap]
    | bool b =>
      simp [List.cons_append, filterListElems, ih, emap_ebind, emap_emap,
        ebind_ebind, ebind_emap]
    | str s =>
      by_cases hs : normStr s = fc
      · simp [List.cons_append, filterListElems, ih, hs]
      · simp [List.cons_append, filterListElems, ih, hs, emap_ebind, emap_emap,
          ebind_ebind, ebind_emap]
    | dict d =>
      simp [List.cons_append, filterListElems, ih, filter_dict, ebind_okk,
        emap_ebind, emap_emap, ebind_ebind, ebind_emap]
    | list l =>
      cases hl : filterListElems fc l with
      | ok a =>
        simp [List.cons_append, filterListElems, ih, hl, ebind_okk, emap_ebind,
          emap_emap, ebind_ebind, ebind_emap, List.append_assoc]
      | error msg =>
        simp [List.cons_append, filterListElems, hl, ebind_err]
    | tuple t =>
      cases ht : filterTupleElems fc t with
      | ok a =>
        simp [List.cons_append, filterListElems, ih, ht, ebind_okk, emap_ebind,
          emap_emap, ebind_ebind, ebind_emap]
      | error msg =>
        simp [List.cons_append, filterListElems, ht, ebind_err]
    | set s =>
      cases hs : filter_set (Value.set s) fc with
      | ok a =>
        simp [List.cons_append, filterListElems, ih, hs, ebind_okk, emap_ebind,
          emap_emap, ebind_ebind, ebind_emap]
      | error msg =>
        simp [List.cons_append, filterListElems, hs, ebind_err]

theorem filterTupleElems_append (fc : List Char) (xs ys : List Value) :
    filterTupleElems fc (xs ++ ys) =
      Except.bind (filterTupleElems fc xs)
        (fun a => Except.map (fun b => a ++ b) (filterTupleElems fc ys)) := by
  induction xs with
  | nil => simp [filterTupleElems, ebind_okk, emap_id]
  | cons e rest ih =>
    cases e with
    | null =>
      simp [List.cons_append, filterTupleElems, ih, emap_ebind, emap_emap,
        ebind_ebind, ebind_emap]
    | int n =>
      simp [List.cons_append, filterTupleElems, ih, emap_ebind, emap_emap,
        ebind_ebind, ebind_emap]
    | bool b =>
      simp [List.cons_append, filterTupleElems, ih, emap_ebind, emap_emap,
        ebind_ebind, ebind_emap]
    | str s =>
      by_cases hs : normStr s = fc
      · simp [List.cons_append, filterTupleElems, ih, hs]
      · simp [List.cons_append, filterTupleElems, ih, hs, emap_ebind, emap_emap,
          ebind_ebind, ebind_emap]
    | dict d =>
      simp [List.cons_append, filterTupleElems, ih, filter_dict, ebind_okk,
        emap_ebind, emap_emap, ebind_ebind, ebind_emap]
    | list l =>
      cases hl : filterListElems fc l with
      | ok a =>
        simp [List.cons_append, filterTupleElems, ih, hl, ebind_okk, emap_ebind,
          emap_emap, ebind_ebind, ebind_emap]
      | error msg =>
        simp [List.cons_append, filterTupleElems, hl, ebind_err]
    | tuple t =>
      cases ht : filterTupleElems fc t with
      | ok a =>
        simp [List.cons_append, filterTupleElems, ih, ht, ebind_okk, emap_ebind,
          emap_emap, ebind_ebind, ebind_emap]
      | error msg =>
        simp [List.cons_append, filterTupleElems, ht, ebind_err]
    | set s =>
      cases hs : filter_set (Value.set s) fc with
      | ok a =>
        simp [List.cons_append, filterTupleElems, ih, hs, ebind_okk, emap_ebind,
          emap_emap, ebind_ebind, ebind_emap]
      | error msg =>
        simp [List.cons_append, filterTupleElems, hs, ebind_err]

/-! ### Set normalization lemmas -/

theorem setAdd_mem (acc : List Value) (x v : Value) :
    v ∈ setAdd acc x ↔ v ∈ acc ∨ v = x := by
  unfold setAdd
  by_cases h : x ∈ acc
  · rw [if_pos h]
    constructor
    · exact Or.inl
    · rintro (h1 | h1)
      · exact h1
      · exact h1 ▸ h
  · rw [if_neg h]
    simp [List.mem_append]

theorem setAdd_nodup (acc : List Value) (x : Value) (h : acc.Nodup) :
    (setAdd acc x).Nodup := by
  unfold setAdd
  by_cases hx : x ∈ acc
  · simpa [hx] using h
  · rw [if_neg hx, List.nodup_append]
    refine ⟨h, List.nodup_singleton x, ?_⟩
    intro a ha hax
    rw [List.mem_singleton] at hax
    exact hx (hax ▸ ha)

theorem filterSetElems_error_iff (fc : List Char) (elems : List Value) :
    ∀ acc, (∃ msg, filterSetElems fc acc elems = Except.error msg) ↔
      ∃ e ∈ elems, isContainer e = true := by
  induction elems with
  | nil => intro acc; simp [filterSetElems]
  | cons e rest ih =>
    intro acc
    cases e with
    | null => simpa [filterSetElems, isContainer] using ih (setAdd acc Value.null)
    | int n => simpa [filterSetElems, isContainer] using ih (setAdd acc (Value.int n))
    | bool b => simpa [filterSetElems, isContainer] using ih (setAdd acc (Value.bool b))
    | str s =>
      by_cases hs : normStr s = fc
      · simpa [filterSetElems, isContainer, hs] using ih acc
      · simpa [filterSetElems, isContainer, hs] using
          ih (setAdd acc (Value.str (normStr s)))
    | dict d =>
      constructor
      · intro _
        exact ⟨Value.dict d, by simp, rfl⟩
      · intro _
        exact ⟨_, rfl⟩
    | list l =>
      constructor
      · intro _
        exact ⟨Value.list l, by simp, rfl⟩
      · intro _
        exact ⟨_, rfl⟩
    | tuple t =>
      constructor
      · intro _
        exact ⟨Value.tuple t, by simp, rfl⟩
      · intro _
        exact ⟨_, rfl⟩
    | set s2 =>
      constructor
      · intro _
        exact ⟨Value.set s2, by simp, rfl⟩
      · intro _
        exact ⟨_, rfl⟩

theorem filterSetElems_ok_mem (fc : List Char) (elems : List Value) :
    ∀ acc out, filterSetElems fc acc elems = Except.ok out →
      ∀ v, v ∈ out ↔ v ∈ acc ∨ ∃ e ∈ elems, scalarNorm fc e = some v := by
  induction elems with
  | nil =>
    intro acc out h v
    have h2 : Except.ok (ε := String) acc = Except.ok out := h
    injection h2 with h3
    subst h3
    simp
  | cons e rest ih =>
    intro acc out h v
    cases e with
    | null =>
      rw [ih _ out h v, setAdd_mem]
      simp only [List.mem_cons, scalarNorm]
      constructor
      · rintro ((hv | hv) | ⟨e, he, hne⟩)
        · exact Or.inl hv
        · exact Or.inr ⟨Value.null, Or.inl rfl, by rw [hv]⟩
        · exact Or.inr ⟨e, Or.inr he, hne⟩
      · rintro (hv | ⟨e, (rfl | he), hne⟩)
        · exact Or.inl (Or.inl hv)
        · injection hne with hne2
          exact Or.inl (Or.inr hne2.symm)
        · exact Or.inr ⟨e, he, hne⟩
    | int n =>
      rw [ih _ out h v, setAdd_mem]
      simp only [List.mem_cons, scalarNorm]
      constructor
      · rintro ((hv | hv) | ⟨e, he, hne⟩)
        · exact Or.inl hv
        · exact Or.inr ⟨Value.int n, Or.inl rfl, by rw [hv]⟩
        · exact Or.inr ⟨e, Or.inr he, hne⟩
      · rintro (hv | ⟨e, (rfl | he), hne⟩)
        · exact Or.inl (Or.inl hv)
        · injection hne with hne2
          exact Or.inl (Or.inr hne2.symm)
        · exact Or.inr ⟨e, he, hne⟩
    | bool b =>
      rw [ih _ out h v, setAdd_mem]
      simp only [List.mem_cons, scalarNorm]
      constructor
      · rintro ((hv | hv) | ⟨e, he, hne⟩)
        · exact Or.inl hv
        · exact Or.inr ⟨Value.bool b, Or.inl rfl, by rw [hv]⟩
        · exact Or.inr ⟨e, Or.inr he, hne⟩
      · rintro (hv | ⟨e, (rfl | he), hne⟩)
        · exact Or.inl (Or.inl hv)
        · injection hne with hne2
          exact Or.inl (Or.inr hne2.symm)
        · exact Or.inr ⟨e, he, hne⟩
    | str s =>
      by_cases hs : normStr s = fc
      · have h' : filterSetElems fc acc rest = Except.ok out := by
          simpa [filterSetElems, hs] using h
        rw [ih _ out h' v]
        simp only [List.mem_cons, scalarNorm]
        constructor
        · rintro (hv | ⟨e, he, hne⟩)
          · exact Or.inl hv
          · exact Or.inr ⟨e, Or.inr he, hne⟩
        · rintro (hv | ⟨e, (rfl | he), hne⟩)
          · exact Or.inl hv
          · have hne' : (if normStr s = fc then (none : Option Value)
                else some (Value.str (normStr s))) = some v := hne
            rw [if_pos hs] at hne'
            exact absurd hne' (by simp)
          · exact Or.inr ⟨e, he, hne⟩
      · have h' : filterSetElems fc (setAdd acc (Value.str (normStr s))) rest =
            Except.ok out := by
          simpa [filterSetElems, hs] using h
        rw [ih _ out h' v, setAdd_mem]
        simp only [List.mem_cons, scalarNorm]
        constructor
        · rintro ((hv | hv) | ⟨e, he, hne⟩)
          · exact Or.inl hv
          · refine Or.inr ⟨Value.str s, Or.inl rfl, ?_⟩
            show (if normStr s = fc then (none : Option Value)
              else some (Value.str (normStr s))) = some v
            rw [if_neg hs, hv]
          · exact Or.inr ⟨e, Or.inr he, hne⟩
        · rintro (hv | ⟨e, (rfl | he), hne⟩)
          · exact Or.inl (Or.inl hv)
          · have hne' : (if normStr s = fc then (none : Option Value)
                else some (Value.str (normStr s))) = some v := hne
            rw [if_neg hs] at hne'
            injection hne' with hne2
            exact Or.inl (Or.inr hne2.symm)
          · exact Or.inr ⟨e, he, hne⟩
    | dict d => exact Except.noConfusion (h : Except.error ("set no daughter elements for dict/list/set/tuple") = Except.ok out)
    | list l => exact Except.noConfusion (h : Except.error ("set no daughter elements for dict/list/set/tuple") = Except.ok out)
    | tuple t => exact Except.noConfusion (h : Except.error ("set no daughter elements for dict/list/set/tuple") = Except.ok out)
    | set s2 => exact Except.noConfusion (h : Except.error ("set no daughter elements for dict/list/set/tuple") = Except.ok out)

theorem filterSetElems_ok_normal (fc : List Char) (elems : List Value) :
    ∀ acc out, acc.Nodup → (∀ v ∈ acc, scalarNorm fc v = some v) →
      filterSetElems fc acc elems = Except.ok out →
      out.Nodup ∧ ∀ v ∈ out, scalarNorm fc v = some v := by
  induction elems with
  | nil =>
    intro acc out hnd hnorm h
    have h2 : Except.ok (ε := String) acc = Except.ok out := h
    injection h2 with h3
    subst h3
    exact ⟨hnd, hnorm⟩
  | cons e rest ih =>
    intro acc out hnd hnorm h
    cases e with
    | null =>
      refine ih _ out (setAdd_nodup acc _ hnd) (fun v hv => ?_) h
      rcases (setAdd_mem acc _ v).mp hv with h1 | h1
      · exact hnorm v h1
      · rw [h1]
        rfl
    | int n =>
      refine ih _ out (setAdd_nodup acc _ hnd) (fun v hv => ?_) h
      rcases (setAdd_mem acc _ v).mp hv with h1 | h1
      · exact hnorm v h1
      · rw [h1]
        rfl
    | bool b =>
      refine ih _ out (setAdd_nodup acc _ hnd) (fun v hv => ?_) h
      rcases (setAdd_mem acc _ v).mp hv with h1 | h1
      · exact hnorm v h1
      · rw [h1]
        rfl
    | str s =>
      by_cases hs : normStr s = fc
      · have h' : filterSetElems fc acc rest = Except.ok out := by
          simpa [filterSetElems, hs] using h
        exact ih _ out hnd hnorm h'
      · have h' : filterSetElems fc (setAdd acc (Value.str (normStr s))) rest =
            Except.ok out := by
          simpa [filterSetElems, hs] using h
        refine ih _ out (setAdd_nodup acc _ hnd) (fun v hv => ?_) h'
        rcases (setAdd_mem acc _ v).mp hv with h1 | h1
        · exact hnorm v h1
        · rw [h1]
          simp only [scalarNorm, normStr_idem]
          rw [if_neg hs]
    | dict d => exact Except.noConfusion (h : Except.error ("set no daughter elements for dict/list/set/tuple") = Except.ok out)
    | list l => exact Except.noConfusion (h : Except.error ("set no daughter elements for dict/list/set/tuple") = Except.ok out)
    | tuple t => exact Except.noConfusion (h : Except.error ("set no daughter elements for dict/list/set/tuple") = Except.ok out)
    | set s2 => exact Except.noConfusion (h : Except.error ("set no daughter elements for dict/list/set/tuple") = Except.ok out)

theorem filterSetElems_self (fc : List Char) (rest : List Value) :
    ∀ acc, (acc ++ rest).Nodup → (∀ v ∈ rest, scalarNorm fc v = some v) →
      filterSetElems fc acc rest = Except.ok (acc ++ rest) := by
  induction rest with
  | nil => intro acc _ _; simp [filterSetElems]
  | cons e t ih =>
    intro acc hnd hnorm
    have he : scalarNorm fc e = some e := hnorm e (by simp)
    have henotin : e ∉ acc := fun hmem =>
      (List.disjoint_of_nodup_append hnd) hmem (by simp)
    have hadd : setAdd acc e = acc ++ [e] := by simp [setAdd, henotin]
    have hnd' : ((acc ++ [e]) ++ t).Nodup := by
      rw [List.append_assoc]
      exact hnd
    have hnorm' : ∀ v ∈ t, scalarNorm fc v = some v := fun v hv => hnorm v (by simp [hv])
    have hres : ((acc ++ [e]) ++ t) = acc ++ e :: t := by
      rw [List.append_assoc]
      rfl
    cases e with
    | null =>
      show filterSetElems fc (setAdd acc Value.null) t = _
      rw [hadd, ih _ hnd' hnorm', hres]
    | int n =>
      show filterSetElems fc (setAdd acc (Value.int n)) t = _
      rw [hadd, ih _ hnd' hnorm', hres]
    | bool b =>
      show filterSetElems fc (setAdd acc (Value.bool b)) t = _
      rw [hadd, ih _ hnd' hnorm', hres]
    | str s =>
      have hs : normStr s ≠ fc := by
        intro hcon
        rw [scalarNorm, if_pos hcon] at he
        exact absurd he (by simp)
      have hss : normStr s = s := by
        rw [scalarNorm, if_neg hs] at he
        injection he with he2
        injection he2 with he3
      show (if normStr s = fc then filterSetElems fc acc t
        else filterSetElems fc (setAdd acc (Value.str (normStr s))) t) = _
      rw [if_neg hs, hss, hadd, ih _ hnd' hnorm', hres]
    | dict d => exact absurd he (by simp [scalarNorm])
    | list l => exact absurd he (by simp [scalarNorm])
    | tuple t2 => exact absurd he (by simp [scalarNorm])
    | set s2 => exact absurd he (by simp [scalarNorm])

theorem filterSetElems_idem (fc : List Char) (elems out : List Value)
    (h : filterSetElems fc [] elems = Except.ok out) :
    filterSetElems fc [] out = Except.ok out := by
  obtain ⟨hnd, hnorm⟩ :=
    filterSetElems_ok_normal fc elems [] out List.nodup_nil (by simp) h
  simpa using filterSetElems_self fc out [] (by simpa using hnd) hnorm

theorem filter_set_ok_idem (fc : List Char) (s : List Value) (v : Value)
    (h : filter_set (Value.set s) fc = Except.ok v) :
    filter_set v fc = Except.ok v := by
  have h2 : Except.map Value.set (filterSetElems fc [] s) = Except.ok v := h
  cases hse : filterSetElems fc [] s with
  | error msg =>
    rw [hse] at h2
    exact Except.noConfusion h2
  | ok out =>
    rw [hse] at h2
    injection h2 with h3
    subst h3
    show Except.map Value.set (filterSetElems fc [] out) = _
    rw [filterSetElems_idem fc s out hse]
    rfl

/-! ### Idempotence of the list and tuple loops -/

theorem filterElems_idem_aux (fc : List Char) (n : Nat) :
    (∀ l l' : List Value, sizeOf l ≤ n → filterListElems fc l = Except.ok l' →
        filterListElems fc l' = Except.ok l')
    ∧ (∀ t t' : List Value, sizeOf t ≤ n → filterTupleElems fc t = Except.ok t' →
        filterTupleElems fc t' = Except.ok t') := by
  induction n using Nat.strong_induction_on with
  | _ n ih =>
  constructor
  · intro l l' hle h
    match l with
    | [] =>
      have h2 : Except.ok (ε := String) ([] : List Value) = Except.ok l' := by
        simpa [filterListElems] using h
      injection h2 with h3
      subst h3
      simp [filterListElems]
    | e :: rest =>
      have hrest : sizeOf rest < n := by
        have : sizeOf rest < sizeOf (e :: rest) := by
          simp only [List.cons.sizeOf_spec]
          omega
        omega
      cases e with
      | int m =>
        simp only [filterListElems] at h
        cases hr : filterListElems fc rest with
        | error msg =>
          rw [hr] at h
          exact Except.noConfusion h
        | ok r =>
          rw [hr, emap_okk] at h
          injection h with h3
          subst h3
          have hr2 : filterListElems fc r = Except.ok r :=
            (ih (sizeOf rest) hrest).1 rest r (Nat.le_refl _) hr
          simp only [filterListElems, hr2, emap_okk]
      | bool b =>
        simp only [filterListElems] at h
        cases hr : filterListElems fc rest with
        | error msg =>
          rw [hr] at h
          exact Except.noConfusion h
        | ok r =>
          rw [hr, emap_okk] at h
          injection h with h3
          subst h3
          have hr2 : filterListElems fc r = Except.ok r :=
            (ih (sizeOf rest) hrest).1 rest r (Nat.le_refl _) hr
          simp only [filterListElems, hr2, emap_okk]
      | null =>
        simp only [filterListElems] at h
        cases hr : filterListElems fc rest with
        | error msg =>
          rw [hr] at h
          exact Except.noConfusion h
        | ok r =>
          rw [hr, emap_okk] at h
          injection h with h3
          subst h3
          have hr2 : filterListElems fc r = Except.ok r :=
            (ih (sizeOf rest) hrest).1 rest r (Nat.le_refl _) hr
          simp only [filterListElems, hr2, emap_okk]
      | str s =>
        simp only [filterListElems] at h
        by_cases hs : normStr s = fc
        · rw [if_pos hs] at h
          exact (ih (sizeOf rest) hrest).1 rest l' (Nat.le_refl _) h
        · rw [if_neg hs] at h
          cases hr : filterListElems fc rest with
          | error msg =>
            rw [hr] at h
            exact Except.noConfusion h
          | ok r =>
            rw [hr, emap_okk] at h
            injection h with h3
            subst h3
            have hr2 : filterListElems fc r = Except.ok r :=
              (ih (sizeOf rest) hrest).1 rest r (Nat.le_refl _) hr
            simp only [filterListElems, normStr_idem, hr2, emap_okk]
            rw [if_neg hs]
      | dict d =>
        simp only [filterListElems] at h
        rw [show filter_dict (Value.dict d) fc = Except.ok Value.null from rfl, ebind_okk] at h
        cases hr : filterListElems fc rest with
        | error msg =>
          rw [hr] at h
          exact Except.noConfusion h
        | ok r =>
          rw [hr, emap_okk] at h
          injection h with h3
          subst h3
          have hr2 : filterListElems fc r = Except.ok r :=
            (ih (sizeOf rest) hrest).1 rest r (Nat.le_refl _) hr
          simp only [filterListElems, hr2, emap_okk]
      | list inner =>
        have hinner : sizeOf inner < n := by
          have : sizeOf inner < sizeOf (Value.list inner :: rest) := by
            simp only [List.cons.sizeOf_spec, Value.list.sizeOf_spec]
            omega
          omega
        simp only [filterListElems] at h
        cases hi : filterListElems fc inner with
        | error msg =>
          rw [hi, ebind_err] at h
          exact Except.noConfusion h
        | ok i2 =>
          rw [hi, ebind_okk] at h
          cases hr : filterListElems fc rest with
          | error msg =>
            rw [hr] at h
            exact Except.noConfusion h
          | ok r =>
            rw [hr, emap_okk] at h
            injection h with h3
            subst h3
            have hi2 : filterListElems fc i2 = Except.ok i2 :=
              (ih (sizeOf inner) hinner).1 inner i2 (Nat.le_refl _) hi
            have hr2 : filterListElems fc r = Except.ok r :=
              (ih (sizeOf rest) hrest).1 rest r (Nat.le_refl _) hr
            rw [filterListElems_append fc i2 r, hi2, ebind_okk, hr2, emap_okk]
      | tuple t =>
        have htup : sizeOf t < n := by
          have : sizeOf t < sizeOf (Value.tuple t :: rest) := by
            simp only [List.cons.sizeOf_spec, Value.tuple.sizeOf_spec]
            omega
          omega
        simp only [filterListElems] at h
        cases hi : filterTupleElems fc t with
        | error msg =>
          rw [hi, ebind_err] at h
          exact Except.noConfusion h
        | ok t2 =>
          rw [hi, ebind_okk] at h
          cases hr : filterListElems fc rest with
          | error msg =>
            rw [hr] at h
            exact Except.noConfusion h
          | ok r =>
            rw [hr, emap_okk] at h
            injection h with h3
            subst h3
            have ht2 : filterTupleElems fc t2 = Except.ok t2 :=
              (ih (sizeOf t) htup).2 t t2 (Nat.le_refl _) hi
            have hr2 : filterListElems fc r = Except.ok r :=
              (ih (sizeOf rest) hrest).1 rest r (Nat.le_refl _) hr
            simp only [filterListElems, ht2, ebind_okk, hr2, emap_okk]
      | set s =>
        simp only [filterListElems] at h
        cases hfs : filter_set (Value.set s) fc with
        | error msg =>
          rw [hfs, ebind_err] at h
          exact Except.noConfusion h
        | ok v =>
          rw [hfs, ebind_okk] at h
          cases hr : filterListElems fc rest with
          | error msg =>
            rw [hr] at h
            exact Except.noConfusion h
          | ok r =>
            rw [hr, emap_okk] at h
            injection h with h3
            subst h3
            have hv : filter_set v fc = Except.ok v := filter_set_ok_idem fc s v hfs
            have hr2 : filterListElems fc r = Except.ok r :=
              (ih (sizeOf rest) hrest).1 rest r (Nat.le_refl _) hr
            have hvset : ∃ out, v = Value.set out := by
              have h2 : Except.map Value.set (filterSetElems fc [] s) = Except.ok v := hfs
              cases hse : filterSetElems fc [] s with
              | error msg =>
                rw [hse] at h2
                exact Except.noConfusion h2
              | ok out =>
                rw [hse] at h2
                injection h2 with h3
                exact ⟨out, h3.symm⟩
            obtain ⟨out, rfl⟩ := hvset
            simp only [filterListElems, hv, ebind_okk, hr2, emap_okk]
  · intro t t' hle h
    match t with
    | [] =>
      have h2 : Except.ok (ε := String) ([] : List Value) = Except.ok t' := by
        simpa [filterTupleElems] using h
      injection h2 with h3
      subst h3
      simp [filterTupleElems]
    | e :: rest =>
      have hrest : sizeOf rest < n := by
        have : sizeOf rest < sizeOf (e :: rest) := by
          simp only [List.cons.sizeOf_spec]
          omega
        omega
      cases e with
      | int m =>
        simp only [filterTupleElems] at h
        cases hr : filterTupleElems fc rest with
        | error msg =>
          rw [hr] at h
          exact Except.noConfusion h
        | ok r =>
          rw [hr, emap_okk] at h
          injection h with h3
          subst h3
          have hr2 : filterTupleElems fc r = Except.ok r :=
            (ih (sizeOf rest) hrest).2 rest r (Nat.le_refl _) hr
          simp only [filterTupleElems, hr2, emap_okk]
      | bool b =>
        simp only [filterTupleElems] at h
        cases hr : filterTupleElems fc rest with
        | error msg =>
          rw [hr] at h
          exact Except.noConfusion h
        | ok r =>
          rw [hr, emap_okk] at h
          injection h with h3
          subst h3
          have hr2 : filterTupleElems fc r = Except.ok r :=
            (ih (sizeOf rest) hrest).2 rest r (Nat.le_refl _) hr
          simp only [filterTupleElems, hr2, emap_okk]
      | null =>
        simp only [filterTupleElems] at h
        cases hr : filterTupleElems fc rest with
        | error msg =>
          rw [hr] at h
          exact Except.noConfusion h
        | ok r =>
          rw [hr, emap_okk] at h
          injection h with h3
          subst h3
          have hr2 : filterTupleElems fc r = Except.ok r :=
            (ih (sizeOf rest) hrest).2 rest r (Nat.le_refl _) hr
          simp only [filterTupleElems, hr2, emap_okk]
      | str s =>
        simp only [filterTupleElems] at h
        by_cases hs : normStr s = fc
        · rw [if_pos hs] at h
          exact (ih (sizeOf rest) hrest).2 rest t' (Nat.le_refl _) h
        · rw [if_neg hs] at h
          cases hr : filterTupleElems fc rest with
          | error msg =>
            rw [hr] at h
            exact Except.noConfusion h
          | ok r =>
            rw [hr, emap_okk] at h
            injection h with h3
            subst h3
            have hr2 : filterTupleElems fc r = Except.ok r :=
              (ih (sizeOf rest) hrest).2 rest r (Nat.le_refl _) hr
            simp only [filterTupleElems, normStr_idem, hr2, emap_okk]
            rw [if_neg hs]
      | dict d =>
        simp only [filterTupleElems] at h
        rw [show filter_dict (Value.dict d) fc = Except.ok Value.null from rfl, ebind_okk] at h
        cases hr : filterTupleElems fc rest with
        | error msg =>
          rw [hr] at h
          exact Except.noConfusion h
        | ok r =>
          rw [hr, emap_okk] at h
          injection h with h3
          subst h3
          have hr2 : filterTupleElems fc r = Except.ok r :=
            (ih (sizeOf rest) hrest).2 rest r (Nat.le_refl _) hr
          simp only [filterTupleElems, hr2, emap_okk]
      | list inner =>
        have hinner : sizeOf inner < n := by
          have : sizeOf inner < sizeOf (Value.list inner :: rest) := by
            simp only [List.cons.sizeOf_spec, Value.list.sizeOf_spec]
            omega
          omega
        simp only [filterTupleElems] at h
        cases hi : filterListElems fc inner with
        | error msg =>
          rw [hi, ebind_err] at h
          exact Except.noConfusion h
        | ok i2 =>
          rw [hi, ebind_okk] at h
          cases hr : filterTupleElems fc rest with
          | error msg =>
            rw [hr] at h
            exact Except.noConfusion h
          | ok r =>
            rw [hr, emap_okk] at h
            injection h with h3
            subst h3
            have hi2 : filterListElems fc i2 = Except.ok i2 :=
              (ih (sizeOf inner) hinner).1 inner i2 (Nat.le_refl _) hi
            have hr2 : filterTupleElems fc r = Except.ok r :=
              (ih (sizeOf rest) hrest).2 rest r (Nat.le_refl _) hr
            simp only [filterTupleElems, hi2, ebind_okk, hr2, emap_okk]
      | tuple t2 =>
        have htup : sizeOf t2 < n := by
          have : sizeOf t2 < sizeOf (Value.tuple t2 :: rest) := by
            simp only [List.cons.sizeOf_spec, Value.tuple.sizeOf_spec]
            omega
          omega
        simp only [filterTupleElems] at h
        cases hi : filterTupleElems fc t2 with
        | error msg =>
          rw [hi, ebind_err] at h
          exact Except.noConfusion h
        | ok t3 =>
          rw [hi, ebind_okk] at h
          cases hr : filterTupleElems fc rest with
          | error msg =>
            rw [hr] at h
            exact Except.noConfusion h
          | ok r =>
            rw [hr, emap_okk] at h
            injection h with h3
            subst h3
            have ht3 : filterTupleElems fc t3 = Except.ok t3 :=
              (ih (sizeOf t2) htup).2 t2 t3 (Nat.le_refl _) hi
            have hr2 : filterTupleElems fc r = Except.ok r :=
              (ih (sizeOf rest) hrest).2 rest r (Nat.le_refl _) hr
            simp only [filterTupleElems, ht3, ebind_okk, hr2, emap_okk]
      | set s =>
        simp only [filterTupleElems] at h
        cases hfs : filter_set (Value.set s) fc with
        | error msg =>
          rw [hfs, ebind_err] at h
          exact Except.noConfusion h
        | ok v =>
          rw [hfs, ebind_okk] at h
          cases hr : filterTupleElems fc rest with
          | error msg =>
            rw [hr] at h
            exact Except.noConfusion h
          | ok r =>
            rw [hr, emap_okk] at h
            injection h with h3
            subst h3
            have hv : filter_set v fc = Except.ok v := filter_set_ok_idem fc s v hfs
            have hr2 : filterTupleElems fc r = Except.ok r :=
              (ih (sizeOf rest) hrest).2 rest r (Nat.le_refl _) hr
            have hvset : ∃ out, v = Value.set out := by
              have h2 : Except.map Value.set (filterSetElems fc [] s) = Except.ok v := hfs
              cases hse : filterSetElems fc [] s with
              | error msg =>
                rw [hse] at h2
                exact Except.noConfusion h2
              | ok out =>
                rw [hse] at h2
                injection h2 with h3
                exact ⟨out, h3.symm⟩
            obtain ⟨out, rfl⟩ := hvset
            simp only [filterTupleElems, hv, ebind_okk, hr2, emap_okk]

/-! ### Cartesian expansion lemmas -/

theorem listProd_length {α : Type} (dims : List (List α)) :
    (listProd dims).length = (dims.map List.length).prod := by
  induction dims with
  | nil => rfl
  | cons d rest ih =>
    simp only [listProd, List.flatMap_def, List.length_flatten, List.map_map,
      List.map_cons, List.prod_cons]
    have hconst :
        (List.map (List.length ∘ fun x => (listProd rest).map (fun t => x :: t)) d) =
          List.replicate d.length (listProd rest).length := by
      rw [← List.map_const']
      exact List.map_congr_left (fun x _ => by simp)
    rw [hconst, List.sum_const_nat, ih]

theorem listProd_map_foldl (dims : List (List VarMap)) (acc : VarMap) :
    (listProd dims).map
        (fun tup => tup.foldl (fun a item => pyDictUpdate a item) acc) =
      mergeLoop acc dims := by
  induction dims generalizing acc with
  | nil => rfl
  | cons d rest ih =>
    simp only [listProd, mergeLoop, List.map_flatMap]
    refine congrArg (List.flatMap d) (funext (fun x => ?_))
    rw [List.map_map]
    have hcomp :
        ((fun tup => List.foldl (fun a item => pyDictUpdate a item) acc tup) ∘
            fun t => x :: t) =
          fun tup => List.foldl (fun a item => pyDictUpdate a item)
            (pyDictUpdate acc x) tup := by
      funext tup
      simp [List.foldl_cons]
    rw [hcomp, ih]

/-- Shared core of the self-reference claims: every other local pair is
kept by the filter and wins the final `dict.update`. -/
theorem merge_lookup_keep (loc inh : VarMap) (k : String) (v : Value)
    (hnd : (loc.map Prod.fst).Nodup)
    (hl : lookupVar loc k = some v)
    (hv : ¬(v = Value.str (("$" ++ k).toList) ∨
      v = Value.str (("$\x7b" ++ k ++ "\x7d").toList))) :
    lookupVar (merge_variables loc inh) k = some v := by
  show lookupVar (pyDictUpdate inh (loc.filter (fun p => ! isSelfRef p.1 p.2))) k = _
  apply lookupVar_pyDictUpdate_of_some
  · exact nodup_keys_filter _ loc hnd
  · rw [lookupVar_filter _ loc k v hnd hl]
    have hsr : isSelfRef k v = false := decide_eq_false hv
    simp [hsr]

/-! ### Claim theorems -/

/-- C1: the spec claims `filter_dict` drops sentinel-valued keys and keeps
the rest, e.g. mapping `a` to `"  @null@ "` and `b` to `1` should give the
mapping with only `b`.  The code instead returns `None` on every input:
everything after the early `return` of the `None`-check is mis-indented
into that branch and unreachable.  This theorem evaluates the code at the
spec's own example. -/
theorem C1_filter_dict_returns_none :
    filter_dict (Value.dict [("a", pstr ("  @null@ ")), ("b", Value.int 1)])
      nullSentinel = Except.ok Value.null := rfl

/-- C2: the spec claims every type-specialized entry point raises a type
error on a non-`None` argument of the wrong container kind.  The three
live entry points (`filter_list`, `filter_tuple`, `filter_set`) do; but
`filter_dict` given a list returns `None` instead of raising, because its
whole body after the `None`-check is unreachable. -/
theorem C2_shape_mismatch :
    (∀ (v : Value) (fc : List Char), v ≠ Value.null → (∀ l, v ≠ Value.list l) →
        ∃ msg, filter_list v fc = Except.error msg)
    ∧ (∀ (v : Value) (fc : List Char), v ≠ Value.null → (∀ t, v ≠ Value.tuple t) →
        ∃ msg, filter_tuple v fc = Except.error msg)
    ∧ (∀ (v : Value) (fc : List Char), v ≠ Value.null → (∀ s, v ≠ Value.set s) →
        ∃ msg, filter_set v fc = Except.error msg)
    ∧ filter_dict (Value.list [Value.int 1]) nullSentinel = Except.ok Value.null := by
  refine ⟨?_, ?_, ?_, rfl⟩
  · intro v fc h1 h2
    cases v with
    | null => exact absurd rfl h1
    | list l => exact absurd rfl (h2 l)
    | int n => exact ⟨_, rfl⟩
    | bool b => exact ⟨_, rfl⟩
    | str s => exact ⟨_, rfl⟩
    | dict d => exact ⟨_, rfl⟩
    | tuple t => exact ⟨_, rfl⟩
    | set s => exact ⟨_, rfl⟩
  · intro v fc h1 h2
    cases v with
    | null => exact absurd rfl h1
    | tuple t => exact absurd rfl (h2 t)
    | int n => exact ⟨_, rfl⟩
    | bool b => exact ⟨_, rfl⟩
    | str s => exact ⟨_, rfl⟩
    | dict d => exact ⟨_, rfl⟩
    | list l => exact ⟨_, rfl⟩
    | set s => exact ⟨_, rfl⟩
  · intro v fc h1 h2
    cases v with
    | null => exact absurd rfl h1
    | set s => exact absurd rfl (h2 s)
    | int n => exact ⟨_, rfl⟩
    | bool b => exact ⟨_, rfl⟩
    | str s => exact ⟨_, rfl⟩
    | dict d => exact ⟨_, rfl⟩
    | list l => exact ⟨_, rfl⟩
    | tuple t => exact ⟨_, rfl⟩

/-- Witness for C2 at a concrete shape mismatch: the list-specialized
entry given a mapping raises. -/
theorem C2_shape_mismatch_witness :
    ∃ msg, filter_list (Value.dict []) nullSentinel = Except.error msg :=
  C2_shape_mismatch.1 (Value.dict []) nullSentinel
    (fun h => Value.noConfusion h) (fun _ h => Value.noConfusion h)

/-- C3: a local pair whose value is exactly the reference string of its
own key (`$k` or the braced form) is elided, so the merged mapping keeps
the inherited value; any other local pair is kept and overrides the
inherited value.  Keys of a Python dict are unique, hence the `Nodup`
hypotheses. -/
theorem C3_self_reference_elision :
    (∀ (loc inh : VarMap) (k : String) (v w : Value),
        (loc.map Prod.fst).Nodup →
        lookupVar loc k = some v →
        (v = Value.str (("$" ++ k).toList) ∨
          v = Value.str (("$\x7b" ++ k ++ "\x7d").toList)) →
        lookupVar inh k = some w →
        lookupVar (merge_variables loc inh) k = some w)
    ∧ (∀ (loc inh : VarMap) (k : String) (v : Value),
        (loc.map Prod.fst).Nodup →
        lookupVar loc k = some v →
        ¬(v = Value.str (("$" ++ k).toList) ∨
          v = Value.str (("$\x7b" ++ k ++ "\x7d").toList)) →
        lookupVar (merge_variables loc inh) k = some v)
    ∧ merge_variables [("x", pstr ("$x"))] [("x", pstr ("outer"))] =
        [("x", pstr ("outer"))]
    ∧ merge_variables [("x", pstr ("$\x7bx\x7d"))] [("x", pstr ("outer"))] =
        [("x", pstr ("outer"))] := by
  refine ⟨?_, ?_, by decide, by decide⟩
  · intro loc inh k v w hnd hl hv hw
    rw [merge_lookup_selfref loc inh k v hnd hl hv, hw]
  · intro loc inh k v hnd hl hv
    exact merge_lookup_keep loc inh k v hnd hl hv

/-- Witness for C3 at the spec's example. -/
theorem C3_self_reference_elision_witness :
    lookupVar (merge_variables [("x", pstr ("$x"))] [("x", pstr ("outer"))]) ("x") =
      some (pstr ("outer")) :=
  C3_self_reference_elision.1 [("x", pstr ("$x"))] [("x", pstr ("outer"))] ("x")
    (pstr ("$x")) (pstr ("outer")) (by decide) (by decide) (Or.inl (by decide))
    (by decide)

/-- C4: the expansion of a non-empty list of dimensions has length equal
to the product of the dimension lengths; zero dimensions give the empty
list, and an empty dimension forces an empty result. -/
theorem C4_cartesian_sizing :
    gen_cartesian_product ([] : List (List VarMap)) = []
    ∧ (∀ dims : List (List VarMap), dims ≠ [] →
        (gen_cartesian_product dims).length = (dims.map List.length).prod)
    ∧ (∀ dims : List (List VarMap), [] ∈ dims → gen_cartesian_product dims = []) := by
  refine ⟨rfl, ?_, ?_⟩
  · intro dims hne
    match dims with
    | [d] => simp [gen_cartesian_product]
    | a :: b :: rest =>
      show ((listProd (a :: b :: rest)).map _).length = _
      rw [List.length_map, listProd_length]
  · intro dims hmem
    match dims with
    | [] => simp at hmem
    | [d] =>
      have hd : d = [] := (List.mem_singleton.mp hmem).symm
      show d = []
      exact hd
    | a :: b :: rest =>
      have hlen : (gen_cartesian_product (a :: b :: rest)).length =
          ((a :: b :: rest).map List.length).prod := by
        show ((listProd (a :: b :: rest)).map _).length = _
        rw [List.length_map, listProd_length]
      have hzero : ((a :: b :: rest).map List.length).prod = 0 :=
        List.prod_eq_zero (by simpa using List.mem_map_of_mem List.length hmem)
      exact List.length_eq_zero.mp (hlen.trans hzero)

/-- Witness for C4: a 2-by-3 example has exactly 6 entries, and an empty
dimension empties the result. -/
theorem C4_cartesian_sizing_witness :
    (gen_cartesian_product
        [[[("a", Value.int 1)], [("a", Value.int 2)]],
          [[("b", Value.int 1)], [("b", Value.int 2)], [("b", Value.int 3)]]]).length = 6
    ∧ gen_cartesian_product [([] : List VarMap)] = []
    ∧ gen_cartesian_product [[], [[("b", Value.int 1)]]] = [] := by
  refine ⟨?_, ?_, ?_⟩
  · exact (C4_cartesian_sizing.2.1 _ (by decide)).trans (by decide)
  · exact C4_cartesian_sizing.2.2 _ (by decide)
  · exact C4_cartesian_sizing.2.2 _ (by decide)

/-- C5: a single dimension is returned unchanged. -/
theorem C5_single_dimension_identity (d : List VarMap) :
    gen_cartesian_product [d] = d := rfl

/-- C6: with two or more dimensions, the expansion equals one literal
nested loop over the dimensions in order (dimension 0 outermost and thus
slowest), each output entry being the left-to-right `dict.update` merge
of one fragment per dimension, so a later dimension overwrites an
earlier one on key conflicts. -/
theorem C6_product_order_and_overwrite (dims : List (List VarMap))
    (h : 2 ≤ dims.length) :
    gen_cartesian_product dims = mergeLoop [] dims := by
  match dims with
  | [] => simp at h
  | [d] => simp at h
  | a :: b :: rest =>
    show (listProd (a :: b :: rest)).map _ = _
    exact listProd_map_foldl (a :: b :: rest) []

/-- Witness for C6 at a concrete key conflict: the later dimension's
value wins. -/
theorem C6_product_order_and_overwrite_witness :
    gen_cartesian_product [[[("k", Value.int 1)]], [[("k", Value.int 2)]]] =
      mergeLoop [] [[[("k", Value.int 1)]], [[("k", Value.int 2)]]]
    ∧ gen_cartesian_product [[[("k", Value.int 1)]], [[("k", Value.int 2)]]] =
      [[("k", Value.int 2)]] :=
  ⟨C6_product_order_and_overwrite _ (by decide), by decide⟩

/-- C7: inside a sequence, a nested sequence's normalized contents are
spliced in flatly; inside a tuple, a nested tuple is kept as a single
nested element; and the spec's example `(1, "Y", (2,))` normalizes to
`(1, "y", (2,))` with the inner tuple intact. -/
theorem C7_flatten_vs_nest :
    (∀ (fc : List Char) (pre inner post : List Value),
        filterListElems fc (pre ++ Value.list inner :: post) =
          Except.bind (filterListElems fc pre) (fun a =>
            Except.bind (filterListElems fc inner) (fun b =>
              Except.map (fun c => a ++ b ++ c) (filterListElems fc post))))
    ∧ (∀ (fc : List Char) (pre t post : List Value),
        filterTupleElems fc (pre ++ Value.tuple t :: post) =
          Except.bind (filterTupleElems fc pre) (fun a =>
            Except.bind (filterTupleElems fc t) (fun b =>
              Except.map (fun c => a ++ Value.tuple b :: c) (filterTupleElems fc post))))
    ∧ filter_tuple (Value.tuple [Value.int 1, pstr ("Y"), Value.tuple [Value.int 2]])
        nullSentinel =
      Except.ok (Value.tuple [Value.int 1, pstr ("y"), Value.tuple [Value.int 2]]) := by
  refine ⟨?_, ?_, ?_⟩
  · intro fc pre inner post
    rw [filterListElems_append]
    simp only [filterListElems, emap_ebind, emap_emap, ebind_ebind, ebind_emap,
      List.append_assoc]
  · intro fc pre t post
    rw [filterTupleElems_append]
    simp only [filterTupleElems, emap_ebind, emap_emap, ebind_ebind, ebind_emap,
      List.append_assoc]
  · simp +decide [filter_tuple, filterTupleElems, filter_dict, filter_set,
      Except.map, pstr]

/-- C8: normalizing a set raises exactly when the set contains a nested
container; a container-free set normalizes to the set of its normalized
scalars with sentinel matches removed; and the spec's two examples hold. -/
theorem C8_set_raises_iff :
    (∀ (fc : List Char) (elems : List Value),
        (∃ msg, filter_set (Value.set elems) fc = Except.error msg) ↔
          ∃ e ∈ elems, isContainer e = true)
    ∧ (∀ (fc : List Char) (elems : List Value),
        (∀ e ∈ elems, isContainer e = false) →
        ∃ out, filter_set (Value.set elems) fc = Except.ok (Value.set out) ∧
          ∀ v, (v ∈ out ↔ ∃ e ∈ elems, scalarNorm fc e = some v))
    ∧ filter_set (Value.set [Value.int 1, Value.tuple [Value.int 2, Value.int 3]])
        nullSentinel =
      Except.error ("set no daughter elements for dict/list/set/tuple")
    ∧ filter_set (Value.set [Value.int 1, pstr ("X")]) nullSentinel =
        Except.ok (Value.set [Value.int 1, pstr ("x")]) := by
  refine ⟨?_, ?_, by decide, by decide⟩
  · intro fc elems
    rw [← filterSetElems_error_iff fc elems []]
    show (∃ msg, Except.map Value.set (filterSetElems fc [] elems) =
      Except.error msg) ↔ _
    cases hse : filterSetElems fc [] elems with
    | error msg => simp [emap_err]
    | ok out => simp [emap_okk]
  · intro fc elems hnc
    have hne : ¬∃ msg, filterSetElems fc [] elems = Except.error msg := by
      rw [filterSetElems_error_iff fc elems []]
      rintro ⟨e, he, hc⟩
      rw [hnc e he] at hc
      exact Bool.noConfusion hc
    cases hse : filterSetElems fc [] elems with
    | error msg => exact absurd ⟨msg, hse⟩ hne
    | ok out =>
      refine ⟨out, ?_, ?_⟩
      · show Except.map Value.set (filterSetElems fc [] elems) = _
        rw [hse]
        rfl
      · intro v
        have hm := filterSetElems_ok_mem fc elems [] out hse v
        simpa using hm

/-- Witness for C8: the container-free branch at the spec's example
`normalize of the set holding 1 and "X"`. -/
theorem C8_set_raises_iff_witness :
    ∃ out, filter_set (Value.set [Value.int 1, pstr ("X")]) nullSentinel =
        Except.ok (Value.set out) ∧
      ∀ v, (v ∈ out ↔
        ∃ e ∈ [Value.int 1, pstr ("X")], scalarNorm nullSentinel e = some v) :=
  C8_set_raises_iff.2.1 nullSentinel [Value.int 1, pstr ("X")] (by decide)

/-- C9: every entry point of the normalizer is idempotent: running it a
second time on a first run's result reproduces that result (stated as
composition in the `Except` monad, so a first-run error propagates
unchanged). -/
theorem C9_normalize_idempotent (v : Value) (fc : List Char) :
    Except.bind (filter_dict v fc) (fun w => filter_dict w fc) = filter_dict v fc
    ∧ Except.bind (filter_list v fc) (fun w => filter_list w fc) = filter_list v fc
    ∧ Except.bind (filter_tuple v fc) (fun w => filter_tuple w fc) = filter_tuple v fc
    ∧ Except.bind (filter_set v fc) (fun w => filter_set w fc) = filter_set v fc := by
  refine ⟨?_, ?_, ?_, ?_⟩
  · cases v <;> rfl
  · cases v with
    | null => rfl
    | list l =>
      show Except.bind (Except.map Value.list (filterListElems fc l)) _ =
        Except.map Value.list (filterListElems fc l)
      cases hl : filterListElems fc l with
      | error msg => rfl
      | ok r =>
        have hr : filterListElems fc r = Except.ok r :=
          (filterElems_idem_aux fc (sizeOf l)).1 l r (Nat.le_refl _) hl
        rw [emap_okk, ebind_okk]
        show Except.map Value.list (filterListElems fc r) = _
        rw [hr]
        rfl
    | int n => rfl
    | bool b => rfl
    | str s => rfl
    | dict d => rfl
    | tuple t => rfl
    | set s => rfl
  · cases v with
    | null => rfl
    | tuple t =>
      show Except.bind (Except.map Value.tuple (filterTupleElems fc t)) _ =
        Except.map Value.tuple (filterTupleElems fc t)
      cases ht : filterTupleElems fc t with
      | error msg => rfl
      | ok r =>
        have hr : filterTupleElems fc r = Except.ok r :=
          (filterElems_idem_aux fc (sizeOf t)).2 t r (Nat.le_refl _) ht
        rw [emap_okk, ebind_okk]
        show Except.map Value.tuple (filterTupleElems fc r) = _
        rw [hr]
        rfl
    | int n => rfl
    | bool b => rfl
    | str s => rfl
    | dict d => rfl
    | list l => rfl
    | set s => rfl
  · cases v with
    | null => rfl
    | set s =>
      cases hfs : filter_set (Value.set s) fc with
      | error msg => rfl
      | ok w =>
        show filter_set w fc = Except.ok w
        exact filter_set_ok_idem fc s w hfs
    | int n => rfl
    | bool b => rfl
    | str s => rfl
    | dict d => rfl
    | list l => rfl
    | tuple t => rfl

/-- C10: a self-referencing local pair is dropped unconditionally, so
when the inherited mapping lacks the key altogether the merged mapping
lacks it too, rather than binding it to the literal reference string. -/
theorem C10_selfref_dropped_without_inherited :
    (∀ (loc inh : VarMap) (k : String) (v : Value),
        (loc.map Prod.fst).Nodup →
        lookupVar loc k = some v →
        (v = Value.str (("$" ++ k).toList) ∨
          v = Value.str (("$\x7b" ++ k ++ "\x7d").toList)) →
        lookupVar inh k = none →
        lookupVar (merge_variables loc inh) k = none)
    ∧ merge_variables [("x", pstr ("$x"))] [] = [] := by
  refine ⟨?_, by decide⟩
  intro loc inh k v hnd hl hv hn
  rw [merge_lookup_selfref loc inh k v hnd hl hv, hn]

/-- Witness for C10 at the concrete example: merging a pure
self-reference into an empty inherited scope gives a mapping without the
key. -/
theorem C10_selfref_dropped_without_inherited_witness :
    lookupVar (merge_variables [("x", pstr ("$x"))] []) ("x") = none :=
  C10_selfref_dropped_without_inherited.1 [("x", pstr ("$x"))] [] ("x")
    (pstr ("$x")) (by decide) (by decide) (Or.inl (by decide)) (by decide)
